import Mathlib

/-!
Shallow embedding of the course-generation core of
`shunsuke-ultimate-ai-platform`, together with proofs checking the
natural-language specification against the code.

Embedded components (each definition is a direct translation of the
named TypeScript source):

* `RateLimiter` — `src/utils/rateLimiter.ts` (token bucket with FIFO
  wait queue).  Time is an explicit `Nat` parameter (`Date.now()`),
  promise resolution is the explicit list of resolved caller ids.
* `WebCrawlerService` — `src/services/webCrawlerService.ts`
  (`crawlUrl`, `crawlMultipleUrls`, `isUrlAllowed`, `filterValidUrls`);
  the HTTP fetch and HTML extraction are an oracle parameter
  `net : String → Option CrawlResult`, regex matching is an oracle
  `re : String → String → Bool`.
* `CacheService` — `src/services/cacheService.ts` over a Redis backend
  modelled as an association list with glob-pattern `KEYS`.
* `ContextAgent.buildHeadingHierarchy` — stack-based heading outline.
* `CourseService.createCourse` / `updateCourse` — the stored
  `totalModules` / `totalLessons` statistics.
* the `POST /api/generate-course` and `POST /api/generate-course-stream`
  handlers of `src/index.ts` — the per-lesson processing loop and the
  progress-event trace; the external generation service is an oracle
  `gen : Lesson → Except Unit String`.
-/

/-! ## RateLimiter (src/utils/rateLimiter.ts) -/

/-- State of a `RateLimiter` instance.  `queue` holds the identities of
suspended `acquire` callers in FIFO order (head = oldest). -/
structure RLState where
  maxTokens : Nat
  refillInterval : Nat
  tokens : Nat
  lastRefill : Nat
  queue : List Nat
  deriving Repr, DecidableEq

/-- The fresh instance built by the constructor at time `now`. -/
def RLState.init (maxTokens refillInterval now : Nat) : RLState :=
  ⟨maxTokens, refillInterval, maxTokens, now, []⟩

/-- The drain loop inside `refill`: `while (tokens > 0 && queue.length > 0)`
pop the head of the queue, decrement `tokens`, resolve the popped caller.
Returns (remaining tokens, remaining queue, resolved callers in order). -/
def drainQueue : Nat → List Nat → Nat × List Nat × List Nat
  | 0, q => (0, q, [])
  | t + 1, [] => (t + 1, [], [])
  | t + 1, c :: q =>
    let r := drainQueue t q
    (r.1, r.2.1, c :: r.2.2)

/-- `RateLimiter.refill` at time `now`: add
`floor((now - lastRefill) / refillInterval) * maxTokens` tokens capped at
`maxTokens`; if at least one token was added, set `lastRefill := now` and
drain the wait queue.  Returns the new state and the resolved callers. -/
def RLState.refill (now : Nat) (s : RLState) : RLState × List Nat :=
  let timePassed := now - s.lastRefill
  let tokensToAdd := timePassed / s.refillInterval * s.maxTokens
  if 0 < tokensToAdd then
    let t1 := min s.maxTokens (s.tokens + tokensToAdd)
    let r := drainQueue t1 s.queue
    ({ s with tokens := r.1, lastRefill := now, queue := r.2.1 }, r.2.2)
  else
    (s, [])

/-- `RateLimiter.acquire` by caller `c` at time `now`: refill, then either
consume a token and return immediately (`Bool` result `true`) or push the
caller onto the wait queue (`false`).  Also returns the callers resolved
by the refill. -/
def RLState.acquire (now c : Nat) (s : RLState) : RLState × List Nat × Bool :=
  let r := s.refill now
  if 0 < r.1.tokens then
    ({ r.1 with tokens := r.1.tokens - 1 }, r.2, true)
  else
    ({ r.1 with queue := r.1.queue ++ [c] }, r.2, false)

/-- `RateLimiter.reset` at time `now`. -/
def RLState.reset (now : Nat) (s : RLState) : RLState :=
  { s with tokens := s.maxTokens, lastRefill := now, queue := [] }

/-- `RateLimiter.getAvailableTokens` at time `now`: refill, return the
token count (plus the callers the refill resolved). -/
def RLState.getAvailableTokens (now : Nat) (s : RLState) : RLState × List Nat × Nat :=
  let r := s.refill now
  (r.1, r.2, r.1.tokens)

/-- `n` successive `acquire` calls at time `now` (caller ids irrelevant). -/
def RLState.acquireN : Nat → Nat → RLState → RLState
  | 0, _, s => s
  | n + 1, now, s => RLState.acquireN n now (s.acquire now 0).1

/-- One externally observable operation on a shared `RateLimiter`. -/
inductive RLOp where
  | acquire (now c : Nat)
  | getAvail (now : Nat)
  | reset (now : Nat)
  deriving Repr, DecidableEq

/-- Apply one operation; return the new state and the list of wait-queue
callers whose suspended `acquire` promise this operation resolved. -/
def RLStep : RLOp → RLState → RLState × List Nat
  | .acquire now c, s => let r := s.acquire now c; (r.1, r.2.1)
  | .getAvail now, s => let r := s.getAvailableTokens now; (r.1, r.2.1)
  | .reset now, s => (s.reset now, [])

/-- Run a list of operations; collect every caller resolved along the way. -/
def RLRun : List RLOp → RLState → RLState × List Nat
  | [], s => (s, [])
  | op :: ops, s =>
    let r := RLStep op s
    let rest := RLRun ops r.1
    (rest.1, r.2 ++ rest.2)

theorem drainQueue_eq (t : Nat) (q : List Nat) :
    drainQueue t q = (t - min t q.length, q.drop (min t q.length), q.take (min t q.length)) := by
  induction q generalizing t with
  | nil => cases t <;> simp [drainQueue]
  | cons c q ih =>
    cases t with
    | zero => simp [drainQueue]
    | succ t => simp [drainQueue, ih t, Nat.succ_min_succ, Nat.succ_sub_succ]

theorem refill_noop (now : Nat) (s : RLState)
    (h : now - s.lastRefill < s.refillInterval) : s.refill now = (s, []) := by
  have hz : (now - s.lastRefill) / s.refillInterval = 0 := Nat.div_eq_of_lt h
  simp [RLState.refill, hz]

theorem refill_resolved_subset (now : Nat) (s : RLState) : (s.refill now).2 ⊆ s.queue := by
  unfold RLState.refill
  by_cases h : 0 < (now - s.lastRefill) / s.refillInterval * s.maxTokens
  · simp only [h, if_pos, drainQueue_eq]
    exact List.take_subset _ _
  · simp [h]

theorem refill_queue_subset (now : Nat) (s : RLState) : (s.refill now).1.queue ⊆ s.queue := by
  unfold RLState.refill
  by_cases h : 0 < (now - s.lastRefill) / s.refillInterval * s.maxTokens
  · simp only [h, if_pos, drainQueue_eq]
    exact List.drop_subset _ _
  · simp [h]

theorem refill_lastRefill_cases (now : Nat) (s : RLState) :
    (s.refill now).1.lastRefill = now ∨ (s.refill now).1 = s := by
  unfold RLState.refill
  by_cases h : 0 < (now - s.lastRefill) / s.refillInterval * s.maxTokens
  · simp [h]
  · simp [h]

theorem refill_resolved_ne_nil (now : Nat) (s : RLState)
    (h : (s.refill now).2 ≠ []) :
    0 < (now - s.lastRefill) / s.refillInterval * s.maxTokens := by
  by_contra hc
  apply h
  unfold RLState.refill
  simp [hc]

/-- C2 counterexample: with `maxTokens = 2`, `windowMs = 100`, state
`(tokens = 0, lastRefillTime = 0)` and `now = 150`, the refill inside
`acquire` sets `lastRefillTime` to `150` (= `now`), not to
`lastRefillTime + floor(elapsed / windowMs) * windowMs = 100` as the
claim states. -/
theorem rateLimiter_refill_lastRefill_cex :
    ((⟨2, 100, 0, 0, []⟩ : RLState).refill 150).1.lastRefill = 150 ∧
    ((⟨2, 100, 0, 0, []⟩ : RLState).refill 150).1.lastRefill ≠
      0 + (150 - 0) / 100 * 100 := by decide

/-- C2 (amended): on `acquire` at time `now`, with
`k = floor((now - lastRefillTime) / windowMs)`: if `k * maxTokens = 0`
the refill changes nothing; otherwise it adds `k * maxTokens` tokens
capped at `maxTokens`, sets `lastRefillTime` to `now` (not advanced by
whole windows), and resumes queued continuations in FIFO order (a prefix
of the queue) while tokens remain; then if a token is left the call
consumes one and returns immediately, otherwise the caller is appended
to the FIFO wait queue. -/
theorem rateLimiter_acquire_spec (s : RLState) (now c : Nat)
    (hnow : s.lastRefill ≤ now) :
    (let k := (now - s.lastRefill) / s.refillInterval
     let T := min s.maxTokens (s.tokens + k * s.maxTokens)
     let d := min T s.queue.length
     (k * s.maxTokens = 0 → s.refill now = (s, [])) ∧
     (0 < k * s.maxTokens →
       s.refill now =
         ({ s with tokens := T - d, lastRefill := now, queue := s.queue.drop d },
          s.queue.take d))) ∧
    (0 < (s.refill now).1.tokens →
      s.acquire now c =
        ({ (s.refill now).1 with tokens := (s.refill now).1.tokens - 1 },
         (s.refill now).2, true)) ∧
    ((s.refill now).1.tokens = 0 →
      s.acquire now c =
        ({ (s.refill now).1 with queue := (s.refill now).1.queue ++ [c] },
         (s.refill now).2, false)) := by
  refine ⟨⟨fun hk => ?_, fun hk => ?_⟩, fun ht => ?_, fun ht => ?_⟩
  · simp only [RLState.refill]
    simp [hk]
  · simp only [RLState.refill]
    simp only [hk, if_pos, drainQueue_eq]
  · simp only [RLState.acquire]
    simp [ht]
  · simp only [RLState.acquire]
    simp [ht]

/-- Witness for `rateLimiter_acquire_spec` at a concrete state and time:
`maxTokens = 3`, two queued waiters, two whole windows elapsed — the
refill resumes both waiters and the acquirer gets a token immediately. -/
theorem rateLimiter_acquire_spec_witness :
    (⟨3, 100, 1, 0, [8, 9]⟩ : RLState).acquire 250 7 =
      ({ ((⟨3, 100, 1, 0, [8, 9]⟩ : RLState).refill 250).1 with
          tokens := ((⟨3, 100, 1, 0, [8, 9]⟩ : RLState).refill 250).1.tokens - 1 },
       ((⟨3, 100, 1, 0, [8, 9]⟩ : RLState).refill 250).2, true) :=
  (rateLimiter_acquire_spec ⟨3, 100, 1, 0, [8, 9]⟩ 250 7 (by decide)).2.1 (by decide)

theorem acquireN_drain (k now : Nat) (s : RLState)
    (hW : 0 < s.refillInterval) (hlr : s.lastRefill = now) (ht : s.tokens = k) :
    RLState.acquireN k now s = { s with tokens := 0 } := by
  induction k generalizing s with
  | zero =>
    cases s
    simp_all [RLState.acquireN]
  | succ k ih =>
    have hre : s.refill now = (s, []) := by
      apply refill_noop
      rw [hlr]
      simpa using hW
    have hacq : (s.acquire now 0).1 = { s with tokens := k } := by
      simp [RLState.acquire, hre, ht]
    rw [RLState.acquireN, hacq]
    exact ih _ hW hlr rfl

/-- C4: for a limiter with `maxTokens = N`, `windowMs = W`: (i) `N`
`acquire` calls drain the fresh instance to zero tokens; (ii) the
`(N+1)`th `acquire` before the window has elapsed does not resolve — the
caller is enqueued; (iii) no call whose time is less than one window
after the last refill resolves any queued caller; (iv) after `k` idle
windows, `getAvailableTokens` reports `min N (k * N)`. -/
theorem rateLimiter_window_bound (N W t0 t1 t k c : Nat)
    (hN : 0 < N) (hW : 0 < W) (h01 : t0 ≤ t1) (h1W : t1 < t0 + W) :
    (RLState.init N W t0).acquireN N t0 = ⟨N, W, 0, t0, []⟩ ∧
    (⟨N, W, 0, t0, []⟩ : RLState).acquire t1 c = (⟨N, W, 0, t0, [c]⟩, [], false) ∧
    (∀ s : RLState, s.refillInterval = W → s.lastRefill = t0 →
      t < t0 + W → (s.refill t).2 = []) ∧
    ((⟨N, W, 0, t0, []⟩ : RLState).getAvailableTokens (t0 + k * W)).2.2 = min N (k * N) := by
  refine ⟨acquireN_drain N t0 _ hW rfl rfl, ?_, ?_, ?_⟩
  · have hre : (⟨N, W, 0, t0, []⟩ : RLState).refill t1 = (⟨N, W, 0, t0, []⟩, []) := by
      apply refill_noop
      simp only []
      omega
    simp [RLState.acquire, hre]
  · intro s hsw hsl hlt
    have : (s.refill t) = (s, []) := by
      apply refill_noop
      rw [hsw, hsl]
      omega
    rw [this]
  · rcases Nat.eq_zero_or_pos k with hk | hk
    · subst hk
      have hre : (⟨N, W, 0, t0, []⟩ : RLState).refill t0 = (⟨N, W, 0, t0, []⟩, []) := by
        apply refill_noop
        simp only []
        omega
      simp [RLState.getAvailableTokens, hre]
    · have hdiv : (t0 + k * W - t0) / W = k := by
        have he : t0 + k * W - t0 = k * W := by omega
        rw [he, Nat.mul_div_cancel _ hW]
      have hpos : 0 < (t0 + k * W - t0) / W * N := by
        rw [hdiv]
        exact Nat.mul_pos hk hN
      simp only [RLState.getAvailableTokens, RLState.refill, hdiv]
      simp [Nat.mul_pos hk hN, drainQueue_eq]

/-- Witness for `rateLimiter_window_bound` with `N = 2`, `W = 100`,
construction at time 0, the third `acquire` at time 50, probes at time
50 and after 3 idle windows. -/
theorem rateLimiter_window_bound_witness :
    (RLState.init 2 100 0).acquireN 2 0 = ⟨2, 100, 0, 0, []⟩ ∧
    (⟨2, 100, 0, 0, []⟩ : RLState).acquire 50 7 = (⟨2, 100, 0, 0, [7]⟩, [], false) ∧
    (∀ s : RLState, s.refillInterval = 100 → s.lastRefill = 0 →
      50 < 0 + 100 → (s.refill 50).2 = []) ∧
    ((⟨2, 100, 0, 0, []⟩ : RLState).getAvailableTokens (0 + 3 * 100)).2.2 = min 2 (3 * 2) :=
  rateLimiter_window_bound 2 100 0 50 50 3 7 (by decide) (by decide) (by decide) (by decide)

/-- The `Date.now()` value an operation observes. -/
def RLOp.time : RLOp → Nat
  | .acquire now _ => now
  | .getAvail now => now
  | .reset now => now

theorem RLStep_resolved_subset (op : RLOp) (s : RLState) : (RLStep op s).2 ⊆ s.queue := by
  cases op with
  | acquire now c =>
    simp only [RLStep, RLState.acquire]
    split
    · exact refill_resolved_subset now s
    · exact refill_resolved_subset now s
  | getAvail now =>
    simpa [RLStep, RLState.getAvailableTokens] using refill_resolved_subset now s
  | reset now => simp [RLStep]

theorem RLStep_resolved_refill (op : RLOp) (s : RLState) (c : Nat)
    (h : c ∈ (RLStep op s).2) :
    (∀ t, op ≠ RLOp.reset t) ∧
    0 < (op.time - s.lastRefill) / s.refillInterval * s.maxTokens := by
  cases op with
  | acquire now cc =>
    have hres : c ∈ (s.refill now).2 := by
      revert h
      simp only [RLStep, RLState.acquire]
      split
      · exact id
      · exact id
    exact ⟨fun t hne => RLOp.noConfusion hne,
      refill_resolved_ne_nil now s (List.ne_nil_of_mem hres)⟩
  | getAvail now =>
    have hres : c ∈ (s.refill now).2 := by
      simpa [RLStep, RLState.getAvailableTokens] using h
    exact ⟨fun t hne => RLOp.noConfusion hne,
      refill_resolved_ne_nil now s (List.ne_nil_of_mem hres)⟩
  | reset now => simp [RLStep] at h

theorem RLStep_queue_mem (op : RLOp) (s : RLState) (c : Nat)
    (h : c ∈ (RLStep op s).1.queue) : c ∈ s.queue ∨ (∃ t, op = RLOp.acquire t c) := by
  cases op with
  | acquire now cc =>
    revert h
    simp only [RLStep, RLState.acquire]
    split
    · intro h
      exact Or.inl (refill_queue_subset now s h)
    · intro h
      rcases List.mem_append.1 h with h1 | h1
      · exact Or.inl (refill_queue_subset now s h1)
      · simp only [List.mem_singleton] at h1
        subst h1
        exact Or.inr ⟨now, rfl⟩
  | getAvail now =>
    refine Or.inl (refill_queue_subset now s ?_)
    simpa [RLStep, RLState.getAvailableTokens] using h
  | reset now => simp [RLStep, RLState.reset] at h

/-- C10: `reset` empties the wait queue without resolving any queued
continuation; an operation resolves a caller only if that caller was in
the wait queue and the operation is an `acquire` or `getAvailableTokens`
whose refill adds at least one token (`reset` never resolves anyone);
consequently a caller outside the wait queue — in particular one whose
suspended `acquire` was discarded by `reset` — is never resolved by any
later sequence of operations that does not contain its own `acquire`. -/
theorem rateLimiter_reset_spec (s : RLState) (now c : Nat) (op : RLOp) (ops : List RLOp) :
    ((s.reset now).queue = [] ∧ (s.reset now).tokens = s.maxTokens ∧
      (s.reset now).lastRefill = now ∧ (RLStep (.reset now) s).2 = []) ∧
    (c ∈ (RLStep op s).2 →
      c ∈ s.queue ∧ (∀ t, op ≠ RLOp.reset t) ∧
      0 < (op.time - s.lastRefill) / s.refillInterval * s.maxTokens) ∧
    (c ∉ s.queue → (∀ t cc, RLOp.acquire t cc ∈ ops → cc ≠ c) →
      c ∉ (RLRun ops s).2) := by
  refine ⟨⟨rfl, rfl, rfl, rfl⟩, fun h => ⟨RLStep_resolved_subset op s h, RLStep_resolved_refill op s c h⟩, ?_⟩
  intro hq hops
  induction ops generalizing s with
  | nil => simp [RLRun]
  | cons op1 ops1 ih =>
    simp only [RLRun, List.mem_append]
    rintro (h1 | h1)
    · exact hq (RLStep_resolved_subset op1 s h1)
    · have hq1 : c ∉ (RLStep op1 s).1.queue := by
        intro hmem
        rcases RLStep_queue_mem op1 s c hmem with hin | ⟨t, rfl⟩
        · exact hq hin
        · exact hops t c (List.mem_cons_self _ _) rfl
      exact ih _ hq1 (fun t cc hin => hops t cc (List.mem_cons_of_mem _ hin)) h1

/-! ## ContextAgent.buildHeadingHierarchy (src/agents/contextAgent.ts) -/

/-- `HeadingStructure` of `src/types/index.ts`; the optional `children`
array is modelled as a list (absent = `[]`). -/
inductive HeadingStructure where
  | mk (level : Nat) (text : String) (content : String)
      (children : List HeadingStructure)

def HeadingStructure.level : HeadingStructure → Nat
  | .mk l _ _ _ => l

def HeadingStructure.children : HeadingStructure → List HeadingStructure
  | .mk _ _ _ c => c

/-- A flat heading as produced by `extractHeadings` (no children yet). -/
structure FlatHeading where
  level : Nat
  text : String
  content : String

/-- An open node on the stack: the heading plus the children attached to
it so far (in reverse). -/
structure HFrame where
  level : Nat
  text : String
  content : String
  childrenRev : List HeadingStructure

/-- Close an open node into a finished `HeadingStructure`. -/
def closeFrame (f : HFrame) : HeadingStructure :=
  .mk f.level f.text f.content f.childrenRev.reverse

/-- Continuation of the pop loop once the previous top has been closed
into `node`: while the new top also has level ≥ the incoming heading's
level, attach `node` as its last child and close it too; otherwise
attach `node` to the open top (or emit it as a root if the stack is
empty). -/
def popClosed (level : Nat) : HeadingStructure → List HFrame → List HeadingStructure →
    List HFrame × List HeadingStructure
  | node, [], rootsRev => ([], node :: rootsRev)
  | node, g :: gs, rootsRev =>
    if level ≤ g.level then
      popClosed level (closeFrame { g with childrenRev := node :: g.childrenRev }) gs rootsRev
    else ({ g with childrenRev := node :: g.childrenRev } :: gs, rootsRev)

/-- The `while (stack.length > 0 && stack[stack.length-1].level >= heading.level)`
pop loop.  A popped node is complete; it becomes a child of the node
below it on the stack, or a root when the stack empties.  The stack's
head is the top; `rootsRev` collects finished roots in reverse. -/
def popGE (level : Nat) : List HFrame → List HeadingStructure →
    List HFrame × List HeadingStructure
  | [], rootsRev => ([], rootsRev)
  | f :: rest, rootsRev =>
    if level ≤ f.level then popClosed level (closeFrame f) rest rootsRev
    else (f :: rest, rootsRev)

/-- Close every open node still on the stack after the last heading,
attaching each to the node below it. -/
def drainClosed : HeadingStructure → List HFrame → List HeadingStructure →
    List HeadingStructure
  | node, [], rootsRev => node :: rootsRev
  | node, g :: gs, rootsRev =>
    drainClosed (closeFrame { g with childrenRev := node :: g.childrenRev }) gs rootsRev

/-- Pop every remaining open node after the last heading was processed. -/
def drainStack : List HFrame → List HeadingStructure → List HeadingStructure
  | [], rootsRev => rootsRev
  | f :: rest, rootsRev => drainClosed (closeFrame f) rest rootsRev

/-- `ContextAgent.buildHeadingHierarchy`: for each heading in document
order, pop the stack while its top has level ≥ the new heading's level,
attach the new heading under the new top (or as a root), push it. -/
def hierStep (st : List HFrame × List HeadingStructure) (h : FlatHeading) :
    List HFrame × List HeadingStructure :=
  let p := popGE h.level st.1 st.2
  (⟨h.level, h.text, h.content, []⟩ :: p.1, p.2)

def buildHeadingHierarchy (headings : List FlatHeading) : List HeadingStructure :=
  let r := headings.foldl hierStep ([], [])
  (drainStack r.1 r.2).reverse

mutual

/-- Outline well-formedness: every node's children are strictly deeper
than the node, recursively. -/
def wfNode : HeadingStructure → Bool
  | .mk level _ _ children => wfChildren level children

/-- All nodes of `children` are strictly deeper than `level` and
themselves well-formed. -/
def wfChildren (level : Nat) : List HeadingStructure → Bool
  | [] => true
  | c :: cs => (decide (level < c.level) && wfNode c) && wfChildren level cs

end

/-- The children attached so far are strictly deeper than the open node
and well-formed. -/
def frameOK (f : HFrame) : Prop :=
  ∀ c ∈ f.childrenRev, f.level < c.level ∧ wfNode c = true

/-- Stack invariant: every frame satisfies `frameOK` and levels strictly
decrease from the top (head) downward. -/
def stackOK : List HFrame → Prop
  | [] => True
  | f :: rest => frameOK f ∧ (∀ g ∈ rest, g.level < f.level) ∧ stackOK rest

theorem wfChildren_iff (level : Nat) (l : List HeadingStructure) :
    wfChildren level l = true ↔ ∀ c ∈ l, level < c.level ∧ wfNode c = true := by
  induction l with
  | nil => simp [wfChildren]
  | cons c cs ih =>
    simp [wfChildren, ih, and_assoc]

theorem closeFrame_wf (f : HFrame) (h : frameOK f) : wfNode (closeFrame f) = true := by
  have : wfNode (closeFrame f) = wfChildren f.level f.childrenRev.reverse := rfl
  rw [this, wfChildren_iff]
  intro c hc
  exact h c (List.mem_reverse.1 hc)

theorem popClosed_ok (level : Nat) (node : HeadingStructure) (stack : List HFrame)
    (rootsRev : List HeadingStructure) (hs : stackOK stack)
    (hr : ∀ r ∈ rootsRev, wfNode r = true) (hn : wfNode node = true)
    (hlev : ∀ g ∈ stack, g.level < node.level) :
    stackOK (popClosed level node stack rootsRev).1 ∧
    (∀ g ∈ (popClosed level node stack rootsRev).1, g.level < level) ∧
    (∀ r ∈ (popClosed level node stack rootsRev).2, wfNode r = true) := by
  induction stack generalizing node rootsRev with
  | nil =>
    refine ⟨trivial, by simp [popClosed], ?_⟩
    intro r hrr
    rw [popClosed] at hrr
    rcases List.mem_cons.1 hrr with h1 | h1
    · subst h1
      exact hn
    · exact hr r h1
  | cons g gs ih =>
    rcases hs with ⟨hg, hord, hrest⟩
    have hgOK : frameOK { g with childrenRev := node :: g.childrenRev } := by
      intro cc hcc
      rcases List.mem_cons.1 hcc with h1 | h1
      · subst h1
        exact ⟨hlev g (List.mem_cons_self _ _), hn⟩
      · exact hg cc h1
    by_cases hc : level ≤ g.level
    · rw [popClosed, if_pos hc]
      refine ih _ _ hrest hr (closeFrame_wf _ hgOK) ?_
      intro x hx
      exact hord x hx
    · rw [popClosed, if_neg hc]
      refine ⟨⟨hgOK, hord, hrest⟩, ?_, hr⟩
      intro x hx
      rcases List.mem_cons.1 hx with h1 | h1
      · subst h1
        exact Nat.not_le.1 hc
      · exact Nat.lt_trans (hord x h1) (Nat.not_le.1 hc)

theorem popGE_ok (level : Nat) (stack : List HFrame) (rootsRev : List HeadingStructure)
    (hs : stackOK stack) (hr : ∀ r ∈ rootsRev, wfNode r = true) :
    stackOK (popGE level stack rootsRev).1 ∧
    (∀ g ∈ (popGE level stack rootsRev).1, g.level < level) ∧
    (∀ r ∈ (popGE level stack rootsRev).2, wfNode r = true) := by
  cases stack with
  | nil => exact ⟨trivial, by simp [popGE], by simpa [popGE] using hr⟩
  | cons f rest =>
    rcases hs with ⟨hf, hord, hrest⟩
    by_cases hc : level ≤ f.level
    · rw [popGE, if_pos hc]
      exact popClosed_ok level (closeFrame f) rest rootsRev hrest hr (closeFrame_wf f hf) hord
    · rw [popGE, if_neg hc]
      refine ⟨⟨hf, hord, hrest⟩, ?_, hr⟩
      intro x hx
      rcases List.mem_cons.1 hx with h1 | h1
      · subst h1
        exact Nat.not_le.1 hc
      · exact Nat.lt_trans (hord x h1) (Nat.not_le.1 hc)

theorem drainClosed_ok (node : HeadingStructure) (stack : List HFrame)
    (rootsRev : List HeadingStructure) (hs : stackOK stack)
    (hr : ∀ r ∈ rootsRev, wfNode r = true) (hn : wfNode node = true)
    (hlev : ∀ g ∈ stack, g.level < node.level) :
    ∀ r ∈ drainClosed node stack rootsRev, wfNode r = true := by
  induction stack generalizing node rootsRev with
  | nil =>
    intro r hrr
    rw [drainClosed] at hrr
    rcases List.mem_cons.1 hrr with h1 | h1
    · subst h1
      exact hn
    · exact hr r h1
  | cons g gs ih =>
    rcases hs with ⟨hg, hord, hrest⟩
    have hgOK : frameOK { g with childrenRev := node :: g.childrenRev } := by
      intro cc hcc
      rcases List.mem_cons.1 hcc with h1 | h1
      · subst h1
        exact ⟨hlev g (List.mem_cons_self _ _), hn⟩
      · exact hg cc h1
    rw [drainClosed]
    exact ih _ _ hrest hr (closeFrame_wf _ hgOK) hord

theorem drainStack_ok (stack : List HFrame) (rootsRev : List HeadingStructure)
    (hs : stackOK stack) (hr : ∀ r ∈ rootsRev, wfNode r = true) :
    ∀ r ∈ drainStack stack rootsRev, wfNode r = true := by
  cases stack with
  | nil => simpa [drainStack] using hr
  | cons f rest =>
    rcases hs with ⟨hf, hord, hrest⟩
    rw [drainStack]
    exact drainClosed_ok (closeFrame f) rest rootsRev hrest hr (closeFrame_wf f hf) hord

theorem build_fold_ok (hs : List FlatHeading) (st : List HFrame × List HeadingStructure)
    (h1 : stackOK st.1) (h2 : ∀ r ∈ st.2, wfNode r = true) :
    stackOK (hs.foldl hierStep st).1 ∧ (∀ r ∈ (hs.foldl hierStep st).2, wfNode r = true) := by
  induction hs generalizing st with
  | nil => exact ⟨h1, h2⟩
  | cons h hs ih =>
    rw [List.foldl_cons]
    obtain ⟨p1, p2, p3⟩ := popGE_ok h.level st.1 st.2 h1 h2
    refine ih (hierStep st h) ⟨?_, p2, p1⟩ p3
    intro c hc
    exact absurd hc (List.not_mem_nil c)

theorem buildHeadingHierarchy_wf (hs : List FlatHeading) :
    ∀ n ∈ buildHeadingHierarchy hs, wfNode n = true := by
  intro n hn
  unfold buildHeadingHierarchy at hn
  rw [List.mem_reverse] at hn
  have h := build_fold_ok hs ([], []) trivial (by simp)
  exact drainStack_ok _ _ h.1 h.2 n hn

/-- C5: `buildHeadingHierarchy` implements the stack algorithm (pop
while the top's level ≥ the new heading's level, attach under the new
top or as a root, push): on the spec's example
`[1:"A", 2:"A.1", 2:"A.2", 1:"B"]` it yields two roots — "A" with
children "A.1", "A.2" and "B" with none — and in every result each
node's children are strictly deeper than the node, recursively. -/
theorem buildHeadingHierarchy_correct :
    (buildHeadingHierarchy
        [⟨1, "A", "c1"⟩, ⟨2, "A.1", "c2"⟩, ⟨2, "A.2", "c3"⟩, ⟨1, "B", "c4"⟩] =
      [.mk 1 "A" "c1" [.mk 2 "A.1" "c2" [], .mk 2 "A.2" "c3" []],
       .mk 1 "B" "c4" []]) ∧
    (∀ hs : List FlatHeading, ∀ n ∈ buildHeadingHierarchy hs, wfNode n = true) :=
  ⟨rfl, buildHeadingHierarchy_wf⟩

/-! ## Course data model (src/types/index.ts) -/

/-- `Lesson` (the fields the pipeline reads). -/
structure Lesson where
  lesson_title : String
  script_length_minutes : String
  deriving Repr, DecidableEq

/-- `Section`. -/
structure Section where
  section_name : String
  lessons : List Lesson
  deriving Repr, DecidableEq

/-- `Module` / `CourseModule`. -/
structure CourseModule where
  module_name : String
  module_description : String
  sections : List Section
  deriving Repr, DecidableEq

/-! ## CourseService.createCourse / updateCourse
(src/services/courseService.ts) -/

/-- The `reduce` chain computing `totalLessons` in `createCourse` and
`updateCourse`. -/
def codeTotalLessons (modules : List CourseModule) : Nat :=
  modules.foldl
    (fun total m =>
      total + m.sections.foldl (fun sectionTotal s => sectionTotal + s.lessons.length) 0)
    0

/-- The spec's formulation: the sum of `lessons.length` over all
sections over all modules. -/
def specTotalLessons (modules : List CourseModule) : Nat :=
  (modules.map (fun m => (m.sections.map (fun s => s.lessons.length)).sum)).sum

/-- The stats columns of a stored `Course` row. -/
structure CourseRecord where
  modules : List CourseModule
  totalModules : Nat
  totalLessons : Nat
  deriving Repr, DecidableEq

/-- `CourseService.createCourse`: stats computed from the supplied
modules. -/
def createCourse (modules : List CourseModule) : CourseRecord :=
  ⟨modules, modules.length, codeTotalLessons modules⟩

/-- `CourseService.updateCourse`: when `updates.modules` is supplied the
stats are recomputed; otherwise the row keeps its stored values. -/
def updateCourse (existing : CourseRecord) (updModules : Option (List CourseModule)) :
    CourseRecord :=
  match updModules with
  | some ms => ⟨ms, ms.length, codeTotalLessons ms⟩
  | none => existing

/-! ## The per-lesson processing loop
(POST /api/generate-course, src/index.ts) -/

/-- The `lessonKey` string built in the processing loop. -/
def lessonKeyStr (i j k : Nat) : String :=
  "module_" ++ toString i ++ "_section_" ++ toString j ++ "_lesson_" ++ toString k

/-- All lessons of a course in module → section → lesson index order,
each with its `lessonKey` (the iteration order of the three nested
`for ... entries()` loops). -/
def flattenLessons (modules : List CourseModule) : List (String × Lesson) :=
  modules.enum.flatMap (fun p =>
    p.2.sections.enum.flatMap (fun q =>
      q.2.lessons.enum.map (fun r => (lessonKeyStr p.1 q.1 r.1, r.2))))

/-- The body of the non-streaming processing loop: for each lesson
`progress.current++`, then request a script; a success is recorded in
`scripts`; a thrown error is logged and **re-thrown**, aborting the loop
(the surrounding `catch` turns it into an error response).  Returns the
loop's outcome and the final `progress.current`. -/
def runLessonLoop (gen : Lesson → Except Unit String) :
    List (String × Lesson) → Nat → List (String × String) →
    Except Unit (List (String × String)) × Nat
  | [], cur, acc => (.ok acc.reverse, cur)
  | (key, l) :: rest, cur, acc =>
    match gen l with
    | .ok script => runLessonLoop gen rest (cur + 1) ((key, script) :: acc)
    | .error e => (.error e, cur + 1)

/-- The whole processing phase of `POST /api/generate-course`. -/
def processLessons (gen : Lesson → Except Unit String) (modules : List CourseModule) :
    Except Unit (List (String × String)) × Nat :=
  runLessonLoop gen (flattenLessons modules) 0 []

theorem sections_fold (l : List Section) (acc : Nat) :
    l.foldl (fun sectionTotal s => sectionTotal + s.lessons.length) acc =
      acc + (l.map (fun s => s.lessons.length)).sum := by
  induction l generalizing acc with
  | nil => simp
  | cons x xs ih => simp [ih, Nat.add_assoc]

theorem modules_fold (ms : List CourseModule) (acc : Nat) :
    ms.foldl
      (fun total m =>
        total + m.sections.foldl (fun sectionTotal s => sectionTotal + s.lessons.length) 0)
      acc =
      acc + (ms.map (fun m => (m.sections.map (fun s => s.lessons.length)).sum)).sum := by
  induction ms generalizing acc with
  | nil => simp
  | cons m ms ih =>
    rw [List.foldl_cons, ih, sections_fold]
    simp [Nat.add_assoc]

theorem codeTotalLessons_eq (ms : List CourseModule) :
    codeTotalLessons ms = specTotalLessons ms := by
  unfold codeTotalLessons specTotalLessons
  rw [modules_fold]
  simp

/-- C8: every stored course row written by `createCourse`, or by
`updateCourse` when `updates.modules` is supplied, has
`totalLessons = Σ_modules Σ_sections lessons.length` and
`totalModules = modules.length`; an update that does not touch modules
leaves the stored stats unchanged. -/
theorem course_totalLessons_invariant (ms : List CourseModule) (existing : CourseRecord) :
    ((createCourse ms).totalLessons = specTotalLessons (createCourse ms).modules ∧
      (createCourse ms).totalModules = (createCourse ms).modules.length) ∧
    ((updateCourse existing (some ms)).totalLessons =
        specTotalLessons (updateCourse existing (some ms)).modules ∧
      (updateCourse existing (some ms)).totalModules =
        (updateCourse existing (some ms)).modules.length) ∧
    updateCourse existing none = existing := by
  refine ⟨⟨?_, rfl⟩, ⟨?_, rfl⟩, rfl⟩
  · exact codeTotalLessons_eq ms
  · exact codeTotalLessons_eq ms

theorem runLessonLoop_error (gen : Lesson → Except Unit String)
    (pre : List (String × Lesson)) (key : String) (l : Lesson)
    (post : List (String × Lesson)) (cur : Nat) (acc : List (String × String))
    (hpre : ∀ kl ∈ pre, ∃ s, gen kl.2 = Except.ok s)
    (hl : gen l = Except.error ()) :
    (runLessonLoop gen (pre ++ (key, l) :: post) cur acc).1 = Except.error () ∧
    (runLessonLoop gen (pre ++ (key, l) :: post) cur acc).2 = cur + pre.length + 1 := by
  induction pre generalizing cur acc with
  | nil =>
    simp [runLessonLoop, hl]
  | cons kl pre ih =>
    obtain ⟨s, hok⟩ := hpre kl (List.mem_cons_self _ _)
    have hpre1 : ∀ x ∈ pre, ∃ s, gen x.2 = Except.ok s :=
      fun x hx => hpre x (List.mem_cons_of_mem _ hx)
    obtain ⟨k1, l1⟩ := kl
    simp only [List.cons_append, runLessonLoop, hok]
    have h := ih (cur + 1) ((k1, s) :: acc) hpre1
    simp only [List.append_eq]
    refine ⟨h.1, ?_⟩
    rw [h.2, List.length_cons]
    omega

theorem runLessonLoop_ok (gen : Lesson → Except Unit String)
    (ls : List (String × Lesson)) (cur : Nat) (acc : List (String × String))
    (h : ∀ kl ∈ ls, ∃ s, gen kl.2 = Except.ok s) :
    (∃ scripts, (runLessonLoop gen ls cur acc).1 = Except.ok scripts ∧
      scripts.map Prod.fst = acc.reverse.map Prod.fst ++ ls.map Prod.fst) ∧
    (runLessonLoop gen ls cur acc).2 = cur + ls.length := by
  induction ls generalizing cur acc with
  | nil =>
    exact ⟨⟨acc.reverse, rfl, by simp⟩, by simp [runLessonLoop]⟩
  | cons kl ls ih =>
    obtain ⟨s, hok⟩ := h kl (List.mem_cons_self _ _)
    have h1 : ∀ x ∈ ls, ∃ s, gen x.2 = Except.ok s :=
      fun x hx => h x (List.mem_cons_of_mem _ hx)
    obtain ⟨k1, l1⟩ := kl
    simp only [runLessonLoop, hok]
    obtain ⟨⟨scripts, hs1, hs2⟩, hcur⟩ := ih (cur + 1) ((k1, s) :: acc) h1
    refine ⟨⟨scripts, hs1, ?_⟩, by rw [hcur, List.length_cons]; omega⟩
    rw [hs2]
    simp

/-- Concrete 3-lesson course used to test the processing loop. -/
def modulesC1 : List CourseModule :=
  [⟨"M", "D", [⟨"S", [⟨"L1", "5"⟩, ⟨"L2", "5"⟩, ⟨"L3", "5"⟩]⟩]⟩]

/-- A generation oracle that throws exactly on lesson "L2". -/
def genC1 : Lesson → Except Unit String :=
  fun l => if l.lesson_title = "L2" then Except.error () else Except.ok ("script:" ++ l.lesson_title)

/-- C1 counterexample: with 3 lessons where lesson 2's script call
throws, the `POST /api/generate-course` processing loop re-throws
(`catch { console.error(...); throw error }`): the run ends in an error
response — no terminal course, no scripts —, lesson 3 is never
attempted, and `progress.current` stops at 2 instead of reaching 3. -/
theorem processing_script_failure_cex :
    processLessons genC1 modulesC1 = (Except.error (), 2) ∧ (2 : Nat) ≠ 3 :=
  ⟨rfl, by decide⟩

/-- C1 (amended): a script-generation failure for one lesson is logged
and **re-thrown**: the run aborts with an error response, lessons after
the failing one are never attempted, and `progress.current` stops at
the failing lesson's 1-based position; `progress.current` reaches the
total only when every script call succeeds, in which case the terminal
response carries a script for every lesson. -/
theorem processing_script_failure_aborts
    (gen : Lesson → Except Unit String) (modules : List CourseModule)
    (pre post : List (String × Lesson)) (key : String) (l : Lesson)
    (hsplit : flattenLessons modules = pre ++ (key, l) :: post)
    (hpre : ∀ kl ∈ pre, ∃ s, gen kl.2 = Except.ok s)
    (hl : gen l = Except.error ()) :
    (processLessons gen modules).1 = Except.error () ∧
    (processLessons gen modules).2 = pre.length + 1 ∧
    (∀ gen2 : Lesson → Except Unit String,
      (∀ kl ∈ flattenLessons modules, ∃ s, gen2 kl.2 = Except.ok s) →
      ∃ scripts, (processLessons gen2 modules).1 = Except.ok scripts ∧
        scripts.map Prod.fst = (flattenLessons modules).map Prod.fst ∧
        (processLessons gen2 modules).2 = (flattenLessons modules).length) := by
  have hp : processLessons gen modules = runLessonLoop gen (pre ++ (key, l) :: post) 0 [] := by
    rw [processLessons, hsplit]
  have h := runLessonLoop_error gen pre key l post 0 [] hpre hl
  refine ⟨by rw [hp]; exact h.1, by rw [hp, h.2]; omega, ?_⟩
  intro gen2 hgen2
  obtain ⟨⟨scripts, h1, h2⟩, hcur⟩ := runLessonLoop_ok gen2 (flattenLessons modules) 0 [] hgen2
  exact ⟨scripts, h1, by simpa using h2, by simpa using hcur⟩

/-- Witness for `processing_script_failure_aborts` on the concrete
3-lesson course where lesson 2 fails. -/
theorem processing_script_failure_witness :
    (processLessons genC1 modulesC1).1 = Except.error () ∧
    (processLessons genC1 modulesC1).2 = 2 ∧
    (∀ gen2 : Lesson → Except Unit String,
      (∀ kl ∈ flattenLessons modulesC1, ∃ s, gen2 kl.2 = Except.ok s) →
      ∃ scripts, (processLessons gen2 modulesC1).1 = Except.ok scripts ∧
        scripts.map Prod.fst = (flattenLessons modulesC1).map Prod.fst ∧
        (processLessons gen2 modulesC1).2 = (flattenLessons modulesC1).length) :=
  processing_script_failure_aborts genC1 modulesC1
    [(lessonKeyStr 0 0 0, ⟨"L1", "5"⟩)] [(lessonKeyStr 0 0 2, ⟨"L3", "5"⟩)]
    (lessonKeyStr 0 0 1) ⟨"L2", "5"⟩ rfl
    (by
      intro kl hkl
      rw [List.mem_singleton] at hkl
      subst hkl
      exact ⟨"script:L1", rfl⟩)
    rfl

/-! ## Progress events of POST /api/generate-course-stream (src/index.ts) -/

/-- The `phase` values of `GenerationProgress`. -/
inductive Phase where
  | initializing
  | extracting
  | generating
  | processing
  | completed
  | error
  deriving Repr, DecidableEq

/-- A progress event as serialized by `sendEvent({ progress })`
(its `phase`, `current` and `total` fields). -/
structure ProgressEvent where
  phase : Phase
  current : Nat
  total : Nat
  deriving Repr, DecidableEq

/-- The processing loop of the stream handler: for each lesson
`progress.current++` and the event is sent **before** the script call;
the script call is not wrapped in try/catch, so a failure ends the loop
(the outer catch then sends an error payload, not a progress event). -/
def runStreamLessonLoop (gen : Lesson → Except Unit String) :
    List (String × Lesson) → Nat → Nat → List ProgressEvent × Except Unit Unit
  | [], _, _ => ([], .ok ())
  | (_, l) :: rest, cur, total =>
    match gen l with
    | .ok _ =>
      let r := runStreamLessonLoop gen rest (cur + 1) total
      (⟨.processing, cur + 1, total⟩ :: r.1, r.2)
    | .error _ => ([⟨.processing, cur + 1, total⟩], .error ())

/-- The progress-event trace of one `POST /api/generate-course-stream`
run with `n` non-empty sources (each extraction succeeding) and the
given generated modules: one `initializing` event with `current = 0`,
one `extracting` event per source with `current = i + 1`, one
`generating` event (whose `current` is still the source count), one
`processing` event per attempted lesson with `current` restarting at 1,
and a final `completed` event when every script call succeeded. -/
def streamTrace (gen : Lesson → Except Unit String) (n : Nat)
    (modules : List CourseModule) : List ProgressEvent :=
  let total := specTotalLessons modules
  let p := runStreamLessonLoop gen (flattenLessons modules) 0 total
  (⟨.initializing, 0, n⟩ ::
      (List.range n).map (fun i => ⟨.extracting, i + 1, n⟩)) ++
    [⟨.generating, n, n⟩] ++ p.1 ++
    (match p.2 with
     | .ok _ => [⟨.completed, total, total⟩]
     | .error _ => [])

/-- Whether a list of `current` values is non-decreasing. -/
def nonDecreasing : List Nat → Bool
  | [] => true
  | [_] => true
  | a :: b :: rest => decide (a ≤ b) && nonDecreasing (b :: rest)

/-- A generation oracle that always succeeds. -/
def genOkC6 : Lesson → Except Unit String := fun _ => Except.ok "s"

/-- Two sources, one module with a single lesson. -/
def modulesC6 : List CourseModule := [⟨"M", "D", [⟨"S", [⟨"L1", "5"⟩]⟩]⟩]

/-- C6 counterexample: with 2 sources and 1 lesson the emitted `current`
values are `0, 1, 2, 2, 1, 1` — the `generating` event carries
`current = 2` (sources) and the first `processing` event restarts at
`current = 1` (lessons), so the whole-stream sequence is **not**
non-decreasing. -/
theorem streamTrace_nondecreasing_cex :
    (streamTrace genOkC6 2 modulesC6).map ProgressEvent.current = [0, 1, 2, 2, 1, 1] ∧
    nonDecreasing ((streamTrace genOkC6 2 modulesC6).map ProgressEvent.current) = false :=
  ⟨rfl, rfl⟩

theorem runStream_ok (gen : Lesson → Except Unit String) (ls : List (String × Lesson))
    (cur total : Nat) (h : ∀ kl ∈ ls, ∃ s, gen kl.2 = Except.ok s) :
    runStreamLessonLoop gen ls cur total =
      ((List.range ls.length).map (fun p => ⟨Phase.processing, cur + p + 1, total⟩),
        Except.ok ()) := by
  induction ls generalizing cur with
  | nil => simp [runStreamLessonLoop]
  | cons kl rest ih =>
    obtain ⟨s, hok⟩ := h kl (List.mem_cons_self _ _)
    obtain ⟨k1, l1⟩ := kl
    simp only [runStreamLessonLoop, hok]
    rw [ih (cur + 1) (fun x hx => h x (List.mem_cons_of_mem _ hx))]
    simp only [List.length_cons, List.range_succ_eq_map, List.map_cons, List.map_map]
    have hhead : ({ phase := Phase.processing, current := cur + 1, total := total } : ProgressEvent) =
        { phase := Phase.processing, current := cur + 0 + 1, total := total } := by
      congr 1
    have htail :
        List.map
            (fun p => ({ phase := Phase.processing, current := cur + 1 + p + 1, total := total } :
              ProgressEvent))
            (List.range rest.length) =
          List.map
            ((fun p => ({ phase := Phase.processing, current := cur + p + 1, total := total } :
              ProgressEvent)) ∘ Nat.succ)
            (List.range rest.length) := by
      refine List.map_congr_left ?_
      intro p _
      simp only [Function.comp_apply]
      congr 1
      omega
    rw [hhead, htail]

theorem sum_map_enum_snd {α : Type} (f : α → Nat) (l : List α) :
    (l.enum.map (fun p => f p.2)).sum = (l.map f).sum := by
  have h1 : l.enum.map (fun p => f p.2) = (l.enum.map Prod.snd).map f := by
    rw [List.map_map]
    rfl
  rw [h1, List.enum_map_snd]

theorem flattenLessons_length (modules : List CourseModule) :
    (flattenLessons modules).length = specTotalLessons modules := by
  unfold flattenLessons specTotalLessons
  simp only [List.length_flatMap, List.map_map, Function.comp_def, List.length_map,
    List.enum_length]
  rw [sum_map_enum_snd (fun m => (m.sections.enum.map (fun q => q.2.lessons.length)).sum) modules]
  refine congrArg List.sum ?_
  refine List.map_congr_left ?_
  intro m _
  exact sum_map_enum_snd (fun s => s.lessons.length) m.sections

/-- C6 (amended): on a run whose script calls all succeed, the phases
occur in the fixed order initializing, extracting (once per source),
generating, processing (once per lesson), completed; within the
extracting phase `current` is `1..n` (strictly increasing by one per
source) and within the processing phase `current` is `1..totalLessons`
(strictly increasing by one per lesson).  The whole-stream `current`
sequence is **not** non-decreasing in general: the `generating` event
carries the source count while the first `processing` event restarts at
1 (see the counterexample). -/
theorem streamTrace_spec (gen : Lesson → Except Unit String) (n : Nat)
    (modules : List CourseModule)
    (hgen : ∀ kl ∈ flattenLessons modules, ∃ s, gen kl.2 = Except.ok s) :
    (streamTrace gen n modules).map ProgressEvent.phase =
      [Phase.initializing] ++ List.replicate n Phase.extracting ++ [Phase.generating] ++
        List.replicate (specTotalLessons modules) Phase.processing ++ [Phase.completed] ∧
    ((streamTrace gen n modules).filter
        (fun e => decide (e.phase = Phase.extracting))).map ProgressEvent.current =
      (List.range n).map (fun i => i + 1) ∧
    ((streamTrace gen n modules).filter
        (fun e => decide (e.phase = Phase.processing))).map ProgressEvent.current =
      (List.range (specTotalLessons modules)).map (fun i => i + 1) := by
  have hT : streamTrace gen n modules =
      (⟨Phase.initializing, 0, n⟩ ::
          (List.range n).map (fun i => ⟨Phase.extracting, i + 1, n⟩)) ++
        [⟨Phase.generating, n, n⟩] ++
        (List.range (specTotalLessons modules)).map
          (fun p => ⟨Phase.processing, 0 + p + 1, specTotalLessons modules⟩) ++
        [⟨Phase.completed, specTotalLessons modules, specTotalLessons modules⟩] := by
    unfold streamTrace
    dsimp only
    rw [runStream_ok gen (flattenLessons modules) 0 (specTotalLessons modules) hgen,
      flattenLessons_length]
  rw [hT]
  refine ⟨?_, ?_, ?_⟩
  · simp [List.map_append, List.map_map, Function.comp_def, List.map_const', List.length_range,
      List.replicate]
  · simp [List.filter_append, List.filter_map, Function.comp_def, List.map_map]
  · simp [List.filter_append, List.filter_map, Function.comp_def, List.map_map]

/-- Witness for `streamTrace_spec` on the concrete 2-source, 1-lesson
run with an always-succeeding generation oracle. -/
theorem streamTrace_spec_witness :
    (streamTrace genOkC6 2 modulesC6).map ProgressEvent.phase =
      [Phase.initializing] ++ List.replicate 2 Phase.extracting ++ [Phase.generating] ++
        List.replicate (specTotalLessons modulesC6) Phase.processing ++ [Phase.completed] ∧
    ((streamTrace genOkC6 2 modulesC6).filter
        (fun e => decide (e.phase = Phase.extracting))).map ProgressEvent.current =
      (List.range 2).map (fun i => i + 1) ∧
    ((streamTrace genOkC6 2 modulesC6).filter
        (fun e => decide (e.phase = Phase.processing))).map ProgressEvent.current =
      (List.range (specTotalLessons modulesC6)).map (fun i => i + 1) :=
  streamTrace_spec genOkC6 2 modulesC6 (fun kl _ => ⟨"s", rfl⟩)


/-! ## CacheService over Redis (src/services/cacheService.ts) -/

/-- Redis `KEYS` glob matching (`*`, `?`), with explicit fuel so that it
evaluates by kernel reduction; the fuel `pattern.length + key.length + 1`
always suffices because each step shrinks pattern + remaining key. -/
def globMatchAux : Nat → List Char → List Char → Bool
  | 0, _, _ => false
  | _ + 1, [], [] => true
  | _ + 1, [], _ :: _ => false
  | f + 1, '*' :: ps, [] => globMatchAux f ps []
  | f + 1, '*' :: ps, c :: cs =>
    globMatchAux f ps (c :: cs) || globMatchAux f ('*' :: ps) cs
  | f + 1, '?' :: ps, _ :: cs => globMatchAux f ps cs
  | _ + 1, _ :: _, [] => false
  | f + 1, p :: ps, c :: cs => (p == c) && globMatchAux f ps cs

/-- `redis.keys(pattern)` membership test for one key. -/
def redisGlobMatch (pattern key : String) : Bool :=
  globMatchAux (pattern.length + key.length + 1) pattern.data key.data

/-- The cache backend: connection flag plus the stored key/value pairs
(values already serialized; `JSON.parse ∘ JSON.stringify` is the
identity on the modelled values). -/
structure CacheState where
  connected : Bool
  store : List (String × String)
  deriving Repr, DecidableEq

/-- `CacheService.get`: `null` when disconnected or missing. -/
def cacheGet (st : CacheState) (key : String) : Option String :=
  if st.connected then st.store.lookup key else none

/-- `CacheService.set`: no-op returning `false` when disconnected,
otherwise `SETEX`/`SET` replaces the key's value. -/
def cacheSet (st : CacheState) (key value : String) : Bool × CacheState :=
  if st.connected then
    (true, ⟨st.connected, (key, value) :: st.store.filter (fun kv => !(kv.1 == key))⟩)
  else (false, st)

/-- `CacheService.deletePattern`: `KEYS pattern`, then `DEL` of every
matched key, returning the deleted count (0 when nothing matches or the
backend is disconnected). -/
def cacheDeletePattern (st : CacheState) (pattern : String) : Nat × CacheState :=
  if st.connected then
    let keys := (st.store.map Prod.fst).filter (fun k => redisGlobMatch pattern k)
    if keys.length = 0 then (0, st)
    else (keys.length, ⟨st.connected, st.store.filter (fun kv => !(redisGlobMatch pattern kv.1))⟩)
  else (0, st)

theorem lookup_filter_not_match (key pattern : String) (l : List (String × String))
    (h : redisGlobMatch pattern key = true) :
    (l.filter (fun kv => !(redisGlobMatch pattern kv.1))).lookup key = none := by
  induction l with
  | nil => rfl
  | cons kv l ih =>
    by_cases hm : redisGlobMatch pattern kv.1 = true
    · simp [List.filter_cons, hm, ih]
    · have hne : (key == kv.1) = false := by
        rw [beq_eq_false_iff_ne]
        intro he
        rw [← he] at hm
        exact hm h
      simp [List.filter_cons, hm, List.lookup, hne, ih]

theorem cacheDeletePattern_eq (st : CacheState) (pattern : String)
    (hconn : st.connected = true) :
    cacheDeletePattern st pattern =
      (((st.store.map Prod.fst).filter (fun k => redisGlobMatch pattern k)).length,
        ⟨true, st.store.filter (fun kv => !(redisGlobMatch pattern kv.1))⟩) := by
  obtain ⟨c, store⟩ := st
  simp only at hconn
  subst hconn
  unfold cacheDeletePattern
  simp only [if_true]
  by_cases hz : ((store.map Prod.fst).filter (fun k => redisGlobMatch pattern k)).length = 0
  · rw [if_pos hz, hz]
    have hall : ∀ kv ∈ store, redisGlobMatch pattern kv.1 = false := by
      intro kv hkv
      have hmem := List.mem_map_of_mem Prod.fst hkv
      have hnil := List.length_eq_zero.1 hz
      have := List.filter_eq_nil_iff.1 hnil kv.1 hmem
      simpa using this
    have hself : store.filter (fun kv => !(redisGlobMatch pattern kv.1)) = store := by
      rw [List.filter_eq_self]
      intro kv hkv
      simp [hall kv hkv]
    rw [hself]
  · rw [if_neg hz]

/-- C9: with a connected backend, `set("course:1", v)` followed by
`deleteByPattern("course:1*")` makes `get("course:1")` return null; and
`deleteByPattern` removes exactly the keys matching the glob pattern and
returns their count. -/
theorem cache_deletePattern_spec (st : CacheState) (v pattern : String)
    (hconn : st.connected = true) :
    cacheGet (cacheDeletePattern (cacheSet st "course:1" v).2 "course:1*").2 "course:1" = none ∧
    (cacheDeletePattern st pattern).2.store =
      st.store.filter (fun kv => !(redisGlobMatch pattern kv.1)) ∧
    (cacheDeletePattern st pattern).1 =
      ((st.store.map Prod.fst).filter (fun k => redisGlobMatch pattern k)).length := by
  refine ⟨?_, ?_, ?_⟩
  · have h1 : (cacheSet st "course:1" v).2 =
        ⟨true, ("course:1", v) :: st.store.filter (fun kv => !(kv.1 == "course:1"))⟩ := by
      unfold cacheSet
      rw [hconn]
      simp
    rw [h1, cacheDeletePattern_eq _ _ rfl]
    unfold cacheGet
    simp only [if_true]
    exact lookup_filter_not_match "course:1" "course:1*" _ (by decide)
  · rw [cacheDeletePattern_eq st pattern hconn]
  · rw [cacheDeletePattern_eq st pattern hconn]

/-- Witness for `cache_deletePattern_spec` on a connected cache holding
one unrelated key. -/
theorem cache_deletePattern_witness :
    cacheGet (cacheDeletePattern
        (cacheSet ⟨true, [("k", "w")]⟩ "course:1" "V").2 "course:1*").2 "course:1" = none ∧
    (cacheDeletePattern (⟨true, [("k", "w")]⟩ : CacheState) "p*").2.store =
      [("k", "w")].filter (fun kv => !(redisGlobMatch "p*" kv.1)) ∧
    (cacheDeletePattern (⟨true, [("k", "w")]⟩ : CacheState) "p*").1 =
      (([("k", "w")].map Prod.fst).filter (fun k => redisGlobMatch "p*" k)).length :=
  cache_deletePattern_spec ⟨true, [("k", "w")]⟩ "V" "p*" rfl

/-! ## WebCrawlerService (src/services/webCrawlerService.ts) -/

/-- Split a character list at the first `://`, returning what precedes
(reversed accumulator) and what follows. -/
def splitSchemeAux : List Char → List Char → Option (List Char × List Char)
  | acc, ':' :: '/' :: '/' :: rest => some (acc.reverse, rest)
  | acc, c :: cs => splitSchemeAux (c :: acc) cs
  | _, [] => none

/-- A model of `new URL(url)`: scheme, hostname (up to the first `/`)
and the remainder; `none` models the constructor throwing. -/
def parseUrl (url : String) : Option (String × String × String) :=
  match splitSchemeAux [] url.data with
  | none => none
  | some (scheme, rest) =>
    let host := rest.takeWhile (fun c => !(c == '/'))
    let path := rest.dropWhile (fun c => !(c == '/'))
    if scheme.isEmpty || host.isEmpty then none
    else some (String.mk scheme, String.mk host, String.mk path)

/-- `new URL(url).hostname`. -/
def hostOf (url : String) : Option String :=
  (parseUrl url).map (fun p => p.2.1)

/-- The failure modes of `crawlUrl` (`AppError` codes). -/
inductive CrawlError where
  | invalidUrl
  | alreadyCrawled
  | notAllowed
  | notFound
  | timeout
  | networkError
  deriving Repr, DecidableEq

/-- `CrawlResult` (the fields the batch loop reads). -/
structure CrawlResult where
  url : String
  title : String
  content : String
  links : List String
  deriving Repr, DecidableEq

/-- The crawler's session state: the shared cache backend (keyed
`web_content:<url>`) and the session's visited-set `crawledUrls`. -/
structure CrawlerState where
  cacheConnected : Bool
  webCache : List (String × CrawlResult)
  crawledUrls : List String
  deriving Repr, DecidableEq

/-- `WebCrawlerService.isUrlAllowed`: any matching exclude pattern
rejects; a non-empty include list is exclusive.  `re` is the regex-match
oracle (`new RegExp(pattern).test(url)`). -/
def isUrlAllowed (re : String → String → Bool) (excl incl : List String)
    (url : String) : Bool :=
  if excl.any (fun p => re p url) then false
  else if incl.isEmpty then true
  else incl.any (fun p => re p url)

/-- `CacheKeys.WEB_CONTENT + url`. -/
def webContentKey (url : String) : String := "web_content:" ++ url

/-- `WebCrawlerService.crawlUrl`: validate the URL, try the cache
(before the visited-set!), reject a revisit, apply the pattern filters,
then fetch (`net` is the HTTP + HTML-extraction oracle; `none` models a
failed request).  Returns the result, the new state, and whether a
network fetch was performed. -/
def crawlUrl (net : String → Option CrawlResult) (re : String → String → Bool)
    (excl incl : List String) (url : String) (st : CrawlerState) :
    Except CrawlError CrawlResult × CrawlerState × Bool :=
  if (parseUrl url).isNone then (.error .invalidUrl, st, false)
  else
    match (if st.cacheConnected then st.webCache.lookup (webContentKey url) else none) with
    | some cached => (.ok cached, st, false)
    | none =>
      if url ∈ st.crawledUrls then (.error .alreadyCrawled, st, false)
      else if !(isUrlAllowed re excl incl url) then (.error .notAllowed, st, false)
      else
        match net url with
        | some result =>
          (.ok result,
           { st with
              crawledUrls := url :: st.crawledUrls,
              webCache :=
                if st.cacheConnected then
                  (webContentKey url, result) ::
                    st.webCache.filter (fun kv => !(kv.1 == webContentKey url))
                else st.webCache },
           true)
        | none => (.error .networkError, st, true)

/-- `WebCrawlerService.filterValidUrls`: keep links on the source URL's
domain that pass the pattern filters; a link that fails to parse is
dropped. -/
def filterValidUrls (re : String → String → Bool) (excl incl : List String)
    (links : List String) (sourceUrl : String) : List String :=
  match hostOf sourceUrl with
  | none => []
  | some sourceDomain =>
    links.filter (fun link =>
      match hostOf link with
      | some h => (h == sourceDomain) && isUrlAllowed re excl incl link
      | none => false)

/-- The `while` loop of `WebCrawlerService.crawlMultipleUrls`.  Per
iteration: stop if the page cap is reached; skip a visited URL; parse
the URL's hostname (**outside** the try/catch — an unparseable queued
URL throws out of the whole batch, modelled as `.error ()`); skip a
domain at its cap; then crawl inside try/catch — on success append the
result, bump the domain counter, and enqueue up to 10 filtered outbound
links when `maxDepth > 1`; on any crawl error just continue. -/
def crawlLoop (net : String → Option CrawlResult) (re : String → String → Bool)
    (maxDepth maxPages : Nat) (excl incl : List String) :
    List String → CrawlerState → List (String × Nat) → List CrawlResult →
    Except Unit (List CrawlResult)
  | [], _, _, results => .ok results
  | currentUrl :: rest, st, counts, results =>
    if maxPages ≤ results.length then .ok results
    else if currentUrl ∈ st.crawledUrls then
      crawlLoop net re maxDepth maxPages excl incl rest st counts results
    else
      match hostOf currentUrl with
      | none => .error ()
      | some domain =>
        let domainCount := (counts.lookup domain).getD 0
        if maxPages ≤ domainCount then
          crawlLoop net re maxDepth maxPages excl incl rest st counts results
        else
          match crawlUrl net re excl incl currentUrl st with
          | (.ok result, st1, _) =>
            let newQueue :=
              if 1 < maxDepth then
                rest ++ (filterValidUrls re excl incl result.links currentUrl).take 10
              else rest
            crawlLoop net re maxDepth maxPages excl incl newQueue st1
              ((domain, domainCount + 1) :: counts.filter (fun kv => !(kv.1 == domain)))
              (results ++ [result])
          | (.error _, st1, _) =>
            crawlLoop net re maxDepth maxPages excl incl rest st1 counts results
  termination_by queue _ _ results => (maxPages - results.length, queue.length)

/-- `WebCrawlerService.crawlMultipleUrls` seeded with `urls`. -/
def crawlMultipleUrls (net : String → Option CrawlResult) (re : String → String → Bool)
    (maxDepth maxPages : Nat) (excl incl : List String) (urls : List String)
    (st : CrawlerState) : Except Unit (List CrawlResult) :=
  crawlLoop net re maxDepth maxPages excl incl urls st [] []


/-- A concrete URL, page and network oracle for the revisit scenario. -/
def urlC3 : String := "http://a.example/page"

def resC3 : CrawlResult := ⟨"http://a.example/page", "T", "body", []⟩

def netC3 : String → Option CrawlResult :=
  fun u => if u = "http://a.example/page" then some resC3 else none

def reC3 : String → String → Bool := fun _ _ => false

/-- C3 counterexample: `crawlUrl` checks the cache **before** the
session visited-set, so with a connected cache the second same-session
call for a successfully crawled URL returns the cached `CrawlResult`
(without fetching), not the `AlreadyCrawled` failure the claim
requires — even though the URL is in the visited-set. -/
theorem crawlUrl_warm_cache_cex :
    (crawlUrl netC3 reC3 [] [] urlC3
        (crawlUrl netC3 reC3 [] [] urlC3 ⟨true, [], []⟩).2.1).1 = .ok resC3 ∧
    (crawlUrl netC3 reC3 [] [] urlC3
        (crawlUrl netC3 reC3 [] [] urlC3 ⟨true, [], []⟩).2.1).1 ≠
      .error CrawlError.alreadyCrawled ∧
    (crawlUrl netC3 reC3 [] [] urlC3
        (crawlUrl netC3 reC3 [] [] urlC3 ⟨true, [], []⟩).2.1).2.2 = false ∧
    urlC3 ∈ (crawlUrl netC3 reC3 [] [] urlC3 ⟨true, [], []⟩).2.1.crawledUrls := by
  have h1 : (crawlUrl netC3 reC3 [] [] urlC3
      (crawlUrl netC3 reC3 [] [] urlC3 ⟨true, [], []⟩).2.1).1 = .ok resC3 := rfl
  refine ⟨h1, ?_, rfl, ?_⟩
  · rw [h1]
    exact fun hcontra => Except.noConfusion hcontra
  · decide

/-- C3 (amended): on a warm connected cache, a repeated `crawlUrl` of a
valid URL returns the identical cached `CrawlResult` with no network
fetch and no state change; the second call yields `AlreadyCrawled` only
when the cache lookup misses (backend disconnected or entry evicted)
while the URL is in the session's visited-set; and a successful fetch
stores the result under `web_content:<url>`, which is what a later
session's warm-cache hit returns. -/
theorem crawlUrl_revisit_spec (net : String → Option CrawlResult)
    (re : String → String → Bool) (excl incl : List String) (url : String)
    (st : CrawlerState) (r : CrawlResult)
    (hvalid : (parseUrl url).isSome = true) :
    (st.cacheConnected = true → st.webCache.lookup (webContentKey url) = some r →
      crawlUrl net re excl incl url st = (.ok r, st, false)) ∧
    ((if st.cacheConnected then st.webCache.lookup (webContentKey url) else none) = none →
      url ∈ st.crawledUrls →
      crawlUrl net re excl incl url st = (.error .alreadyCrawled, st, false)) ∧
    (∀ result, st.cacheConnected = true →
      st.webCache.lookup (webContentKey url) = none →
      url ∉ st.crawledUrls → isUrlAllowed re excl incl url = true →
      net url = some result →
      crawlUrl net re excl incl url st =
        (.ok result,
         ⟨true, (webContentKey url, result) ::
            st.webCache.filter (fun kv => !(kv.1 == webContentKey url)),
          url :: st.crawledUrls⟩, true) ∧
      (crawlUrl net re excl incl url st).2.1.webCache.lookup (webContentKey url) =
        some result) := by
  obtain ⟨pu, hpu⟩ := Option.isSome_iff_exists.1 hvalid
  have hne : (parseUrl url).isNone = false := by rw [hpu]; rfl
  refine ⟨fun hconn hcache => ?_, fun hcache hvisited => ?_,
    fun result hconn hmiss hnv hallow hnet => ?_⟩
  · unfold crawlUrl
    rw [hne, hconn]
    simp only [Bool.false_eq_true, if_false, if_true, hcache]
  · unfold crawlUrl
    rw [hne]
    simp only [Bool.false_eq_true, if_false, hcache, if_pos hvisited]
  · have hmain : crawlUrl net re excl incl url st =
        (.ok result,
         ⟨true, (webContentKey url, result) ::
            st.webCache.filter (fun kv => !(kv.1 == webContentKey url)),
          url :: st.crawledUrls⟩, true) := by
      unfold crawlUrl
      rw [hne, hconn]
      simp only [Bool.false_eq_true, if_false, if_true, hmiss, hallow, if_neg hnv, hnet]
      obtain ⟨c, wc, cu⟩ := st
      simp only at hconn
      subst hconn
      rfl
    refine ⟨hmain, ?_⟩
    rw [hmain]
    simp [List.lookup]

/-- Witness for `crawlUrl_revisit_spec`: the warm-cache revisit of
`urlC3` returns the cached result without a fetch. -/
theorem crawlUrl_revisit_witness :
    crawlUrl netC3 reC3 [] [] urlC3 ⟨true, [(webContentKey urlC3, resC3)], [urlC3]⟩ =
      (.ok resC3, ⟨true, [(webContentKey urlC3, resC3)], [urlC3]⟩, false) :=
  (crawlUrl_revisit_spec netC3 reC3 [] [] urlC3
    ⟨true, [(webContentKey urlC3, resC3)], [urlC3]⟩ resC3 (by decide)).1 rfl rfl

theorem crawlLoop_nil (net : String → Option CrawlResult) (re : String → String → Bool)
    (maxDepth maxPages : Nat) (excl incl : List String) (st : CrawlerState)
    (counts : List (String × Nat)) (results : List CrawlResult) :
    crawlLoop net re maxDepth maxPages excl incl [] st counts results = .ok results := by
  rw [crawlLoop.eq_def]

theorem crawlLoop_cap (net : String → Option CrawlResult) (re : String → String → Bool)
    (maxDepth maxPages : Nat) (excl incl : List String) (currentUrl : String)
    (rest : List String) (st : CrawlerState) (counts : List (String × Nat))
    (results : List CrawlResult) (h : maxPages ≤ results.length) :
    crawlLoop net re maxDepth maxPages excl incl (currentUrl :: rest) st counts results =
      .ok results := by
  rw [crawlLoop.eq_def]
  simp [h]

theorem crawlLoop_step (net : String → Option CrawlResult) (re : String → String → Bool)
    (maxDepth maxPages : Nat) (excl incl : List String) (currentUrl : String)
    (rest : List String) (st : CrawlerState) (counts : List (String × Nat))
    (results : List CrawlResult) (domain : String)
    (hcap : results.length < maxPages) (hnv : currentUrl ∉ st.crawledUrls)
    (hdom : hostOf currentUrl = some domain)
    (hdc : (counts.lookup domain).getD 0 < maxPages) :
    crawlLoop net re maxDepth maxPages excl incl (currentUrl :: rest) st counts results =
      match crawlUrl net re excl incl currentUrl st with
      | (.ok r, st1, _) =>
        crawlLoop net re maxDepth maxPages excl incl
          (if 1 < maxDepth then
            rest ++ (filterValidUrls re excl incl r.links currentUrl).take 10
          else rest) st1
          ((domain, (counts.lookup domain).getD 0 + 1) ::
            counts.filter (fun kv => !(kv.1 == domain)))
          (results ++ [r])
      | (.error _, st1, _) =>
        crawlLoop net re maxDepth maxPages excl incl rest st1 counts results := by
  rw [crawlLoop.eq_def]
  simp only [hdom, if_neg (Nat.not_le.2 hcap), if_neg hnv, if_neg (Nat.not_le.2 hdc)]
  try rfl

theorem crawlLoop_visited (net : String → Option CrawlResult) (re : String → String → Bool)
    (maxDepth maxPages : Nat) (excl incl : List String) (currentUrl : String)
    (rest : List String) (st : CrawlerState) (counts : List (String × Nat))
    (results : List CrawlResult) (hcap : results.length < maxPages)
    (hv : currentUrl ∈ st.crawledUrls) :
    crawlLoop net re maxDepth maxPages excl incl (currentUrl :: rest) st counts results =
      crawlLoop net re maxDepth maxPages excl incl rest st counts results := by
  rw [crawlLoop.eq_def]
  simp [if_neg (Nat.not_le.2 hcap), hv]

theorem crawlLoop_badurl (net : String → Option CrawlResult) (re : String → String → Bool)
    (maxDepth maxPages : Nat) (excl incl : List String) (currentUrl : String)
    (rest : List String) (st : CrawlerState) (counts : List (String × Nat))
    (results : List CrawlResult) (hcap : results.length < maxPages)
    (hnv : currentUrl ∉ st.crawledUrls) (hdom : hostOf currentUrl = none) :
    crawlLoop net re maxDepth maxPages excl incl (currentUrl :: rest) st counts results =
      .error () := by
  rw [crawlLoop.eq_def]
  simp [if_neg (Nat.not_le.2 hcap), hnv, hdom]

theorem crawlLoop_domaincap (net : String → Option CrawlResult) (re : String → String → Bool)
    (maxDepth maxPages : Nat) (excl incl : List String) (currentUrl : String)
    (rest : List String) (st : CrawlerState) (counts : List (String × Nat))
    (results : List CrawlResult) (domain : String) (hcap : results.length < maxPages)
    (hnv : currentUrl ∉ st.crawledUrls) (hdom : hostOf currentUrl = some domain)
    (hdc : maxPages ≤ (counts.lookup domain).getD 0) :
    crawlLoop net re maxDepth maxPages excl incl (currentUrl :: rest) st counts results =
      crawlLoop net re maxDepth maxPages excl incl rest st counts results := by
  rw [crawlLoop.eq_def]
  simp [if_neg (Nat.not_le.2 hcap), hnv, hdom, hdc]

theorem crawlLoop_step_ok (net : String → Option CrawlResult) (re : String → String → Bool)
    (maxDepth maxPages : Nat) (excl incl : List String) (currentUrl : String)
    (rest : List String) (st : CrawlerState) (counts : List (String × Nat))
    (results : List CrawlResult) (domain : String) (r : CrawlResult) (st1 : CrawlerState)
    (b : Bool) (hcap : results.length < maxPages) (hnv : currentUrl ∉ st.crawledUrls)
    (hdom : hostOf currentUrl = some domain)
    (hdc : (counts.lookup domain).getD 0 < maxPages)
    (hcrawl : crawlUrl net re excl incl currentUrl st = (.ok r, st1, b)) :
    crawlLoop net re maxDepth maxPages excl incl (currentUrl :: rest) st counts results =
      crawlLoop net re maxDepth maxPages excl incl
        (if 1 < maxDepth then
          rest ++ (filterValidUrls re excl incl r.links currentUrl).take 10
        else rest) st1
        ((domain, (counts.lookup domain).getD 0 + 1) ::
          counts.filter (fun kv => !(kv.1 == domain)))
        (results ++ [r]) := by
  rw [crawlLoop_step net re maxDepth maxPages excl incl currentUrl rest st counts results
    domain hcap hnv hdom hdc, hcrawl]

theorem crawlLoop_step_error (net : String → Option CrawlResult) (re : String → String → Bool)
    (maxDepth maxPages : Nat) (excl incl : List String) (currentUrl : String)
    (rest : List String) (st : CrawlerState) (counts : List (String × Nat))
    (results : List CrawlResult) (domain : String) (e : CrawlError) (st1 : CrawlerState)
    (b : Bool) (hcap : results.length < maxPages) (hnv : currentUrl ∉ st.crawledUrls)
    (hdom : hostOf currentUrl = some domain)
    (hdc : (counts.lookup domain).getD 0 < maxPages)
    (hcrawl : crawlUrl net re excl incl currentUrl st = (.error e, st1, b)) :
    crawlLoop net re maxDepth maxPages excl incl (currentUrl :: rest) st counts results =
      crawlLoop net re maxDepth maxPages excl incl rest st1 counts results := by
  rw [crawlLoop_step net re maxDepth maxPages excl incl currentUrl rest st counts results
    domain hcap hnv hdom hdc, hcrawl]

theorem filterValidUrls_mem (re : String → String → Bool) (excl incl : List String)
    (links : List String) (srcUrl link : String)
    (h : link ∈ filterValidUrls re excl incl links srcUrl) :
    link ∈ links ∧ hostOf link = hostOf srcUrl ∧ isUrlAllowed re excl incl link = true := by
  unfold filterValidUrls at h
  cases hsrc : hostOf srcUrl with
  | none =>
    rw [hsrc] at h
    exact absurd h (List.not_mem_nil link)
  | some d =>
    rw [hsrc] at h
    obtain ⟨hmem, hp⟩ := List.mem_filter.1 h
    cases hlink : hostOf link with
    | none =>
      rw [hlink] at hp
      simp at hp
    | some hd =>
      rw [hlink] at hp
      simp only [Bool.and_eq_true, beq_iff_eq] at hp
      exact ⟨hmem, by rw [hp.1], hp.2⟩

theorem crawlLoop_length_le (net : String → Option CrawlResult) (re : String → String → Bool)
    (maxDepth maxPages : Nat) (excl incl : List String)
    (queue : List String) (st : CrawlerState) (counts : List (String × Nat))
    (results : List CrawlResult) (res : List CrawlResult)
    (hok : crawlLoop net re maxDepth maxPages excl incl queue st counts results = .ok res) :
    res.length ≤ max maxPages results.length := by
  induction queue, st, counts, results using crawlLoop.induct net re maxDepth maxPages excl incl generalizing res with
  | case1 st counts results =>
    rw [crawlLoop_nil] at hok
    injection hok with h
    subst h
    exact Nat.le_max_right _ _
  | case2 currentUrl rest st counts results hcap =>
    rw [crawlLoop_cap net re maxDepth maxPages excl incl currentUrl rest st counts results hcap] at hok
    injection hok with h
    subst h
    exact Nat.le_max_right _ _
  | case3 currentUrl rest st counts results hcap hv ih =>
    rw [crawlLoop_visited net re maxDepth maxPages excl incl currentUrl rest st counts results
      (Nat.not_le.1 hcap) hv] at hok
    exact ih res hok
  | case4 currentUrl rest st counts results hcap hnv hdom =>
    rw [crawlLoop_badurl net re maxDepth maxPages excl incl currentUrl rest st counts results
      (Nat.not_le.1 hcap) hnv hdom] at hok
    exact absurd hok (by simp)
  | case5 currentUrl rest st counts results hcap hnv domain hdom dc hdc ih =>
    rw [crawlLoop_domaincap net re maxDepth maxPages excl incl currentUrl rest st counts results
      domain (Nat.not_le.1 hcap) hnv hdom hdc] at hok
    exact ih res hok
  | case6 currentUrl rest st counts results hcap hnv domain hdom dc hdc r st1 b hcrawl nq ih =>
    rw [crawlLoop_step_ok net re maxDepth maxPages excl incl currentUrl rest st counts results
      domain r st1 b (Nat.not_le.1 hcap) hnv hdom (Nat.not_le.1 hdc) hcrawl] at hok
    have hb := ih res hok
    rw [List.length_append] at hb
    have h1 : results.length < maxPages := Nat.not_le.1 hcap
    rw [Nat.max_eq_left (by simpa using h1)] at hb
    exact le_trans hb (Nat.le_max_left _ _)
  | case7 currentUrl rest st counts results hcap hnv domain hdom dc hdc e st1 b hcrawl ih =>
    rw [crawlLoop_step_error net re maxDepth maxPages excl incl currentUrl rest st counts results
      domain e st1 b (Nat.not_le.1 hcap) hnv hdom (Nat.not_le.1 hdc) hcrawl] at hok
    exact ih res hok

/-- C7: in `crawlMultipleUrls`, an error thrown by the per-URL crawl
call is logged inside the loop's try/catch and is never fatal: the loop
continues with the next queued URL and the errored URL contributes no
result; on success, up to 10 outbound links — each on the same domain
as the crawled URL and passing the pattern filters — are appended to
the queue, and only when `maxDepth > 1`; the loop returns when the
queue is empty or the page cap is reached, and the result list never
exceeds the cap. -/
theorem crawlMultipleUrls_spec (net : String → Option CrawlResult)
    (re : String → String → Bool) (maxDepth maxPages : Nat) (excl incl : List String)
    (currentUrl : String) (rest : List String) (st st1 : CrawlerState)
    (counts : List (String × Nat)) (results : List CrawlResult) (domain : String) :
    (∀ e b, results.length < maxPages → currentUrl ∉ st.crawledUrls →
      hostOf currentUrl = some domain → (counts.lookup domain).getD 0 < maxPages →
      crawlUrl net re excl incl currentUrl st = (.error e, st1, b) →
      crawlLoop net re maxDepth maxPages excl incl (currentUrl :: rest) st counts results =
        crawlLoop net re maxDepth maxPages excl incl rest st1 counts results) ∧
    (∀ r b, results.length < maxPages → currentUrl ∉ st.crawledUrls →
      hostOf currentUrl = some domain → (counts.lookup domain).getD 0 < maxPages →
      crawlUrl net re excl incl currentUrl st = (.ok r, st1, b) →
      crawlLoop net re maxDepth maxPages excl incl (currentUrl :: rest) st counts results =
        crawlLoop net re maxDepth maxPages excl incl
          (if 1 < maxDepth then
            rest ++ (filterValidUrls re excl incl r.links currentUrl).take 10
          else rest) st1
          ((domain, (counts.lookup domain).getD 0 + 1) ::
            counts.filter (fun kv => !(kv.1 == domain)))
          (results ++ [r])) ∧
    crawlLoop net re maxDepth maxPages excl incl [] st counts results = .ok results ∧
    (maxPages ≤ results.length →
      crawlLoop net re maxDepth maxPages excl incl (currentUrl :: rest) st counts results =
        .ok results) ∧
    (∀ urls res,
      crawlMultipleUrls net re maxDepth maxPages excl incl urls st = .ok res →
      res.length ≤ maxPages) ∧
    (∀ link srcUrl links, link ∈ filterValidUrls re excl incl links srcUrl →
      link ∈ links ∧ hostOf link = hostOf srcUrl ∧
        isUrlAllowed re excl incl link = true) := by
  refine ⟨?_, ?_, crawlLoop_nil net re maxDepth maxPages excl incl st counts results, ?_, ?_, ?_⟩
  · intro e b hcap hnv hdom hdc hcrawl
    exact crawlLoop_step_error net re maxDepth maxPages excl incl currentUrl rest st counts
      results domain e st1 b hcap hnv hdom hdc hcrawl
  · intro r b hcap hnv hdom hdc hcrawl
    exact crawlLoop_step_ok net re maxDepth maxPages excl incl currentUrl rest st counts
      results domain r st1 b hcap hnv hdom hdc hcrawl
  · intro hcap
    exact crawlLoop_cap net re maxDepth maxPages excl incl currentUrl rest st counts results hcap
  · intro urls res hok
    have h := crawlLoop_length_le net re maxDepth maxPages excl incl urls st [] [] res hok
    simpa using h
  · intro link srcUrl links h
    exact filterValidUrls_mem re excl incl links srcUrl link h
